import Mathlib

/-!
Verification of `src/ngram.c` (a character-level n-gram language model).

The C source is embedded shallowly:

* characters are modelled as their ASCII codes (`Nat`), since the C code
  manipulates `char`/`int` values numerically (newline is 10, letters are
  97..122);
* C `int` token values are modelled as `Nat`: every call site feeds tokens
  produced by `tokenizer_encode`, which are non-negative, and the
  `ix >= 0` half of the assertion in `ravel_index` is therefore automatic;
* `assert` failures and undefined reads are modelled by `Option` (`none`
  means the C program aborts or performs an out-of-bounds access);
* `float` arithmetic in `ngram_inference` is modelled exactly over `ℚ`;
* stateful functions become pure state-passing functions.

Transcription notes (kept faithful to the source): the source file contains
several pure spelling slips that do not parse as C (`sclae` for `scale`,
`model->count` for `model->counts`, `int token tokenizer_encode(c)` missing
an `=`, the `val`/`length` parameter name mix-up in `tape_init`, and the
broken `NUM_TOKENS`/`EOT_TOKEN` macro definitions whose intended values 27
and 0 are stated in the adjacent comments).  Those are read as their
unambiguous intent.  Semantically well-formed statements are embedded
exactly as written, in particular `multiplier += dim;` in `ravel_index`
and the assertion `seq_len >= 1 && seq_len <= 0` in `ngram_init`.
-/

/-- `powi` from `src/ngram.c`: `result = 1; for (i in 0..exp) result *= base`. -/
def powi (base : Nat) (exp : Nat) : Nat :=
  (List.range exp).foldl (fun result _ => result * base) 1

/-- `tokenizer_encode` from `src/ngram.c`: asserts `c == '\n' || ('a' <= c &&
c <= 'z')` (codes 10 and 97..122), then returns `0` for newline and
`c - 'a' + 1` for a letter.  The assertion failure is `none`. -/
def tokenizer_encode (c : Nat) : Option Nat :=
  if c = 10 ∨ (97 ≤ c ∧ c ≤ 122) then
    some (if c = 10 then 0 else c - 97 + 1)
  else none

/-- `tokenizer_decode` from `src/ngram.c`: asserts `token >= 0 && token <
NUM_TOKENS` (27), then returns `'\n'` for token 0 and `'a' + (token - 1)`
for tokens 1..26. -/
def tokenizer_decode (token : Nat) : Option Nat :=
  if token < 27 then
    some (if token = 0 then 10 else 97 + (token - 1))
  else none

/-- The `Tape` struct from `src/ngram.c`: current fill count `n`, capacity
`length`, and the buffer contents. -/
structure Tape where
  n : Nat
  length : Nat
  buffer : List Nat

/-- `tape_update` from `src/ngram.c`.  For `length == 0` it returns ready at
once and mutates nothing.  Otherwise it shifts the buffer left by one,
writes the token into the last slot, bumps `n` up to `length`, and reports
whether the tape is now full.  Shifting a length-`L` buffer left and
writing the last slot is exactly `buffer.drop 1 ++ [token]`. -/
def tape_update (tape : Tape) (token : Nat) : Tape × Bool :=
  if tape.length = 0 then
    (tape, true)
  else
    let buffer := tape.buffer.drop 1 ++ [token]
    let n := if tape.n < tape.length then tape.n + 1 else tape.n
    ({ tape with buffer := buffer, n := n }, n == tape.length)

/-- Feeding a whole token sequence through `tape_update`, keeping the tape. -/
def tape_feed (tape : Tape) (tokens : List Nat) : Tape :=
  tokens.foldl (fun t tok => (tape_update t tok).1) tape

/-- The loop body of `ravel_index` from `src/ngram.c`, processing the index
entries from last (`i = n-1`) to first (`i = 0`) with accumulator
`index1d` and `multiplier`.  The source reads

    assert(ix >= 0 && ix < dim)
        index1d += multiplier * ix;
    multiplier += dim;

so after checking `ix < dim` (the `ix >= 0` half is automatic over `Nat`)
the accumulator gains `multiplier * ix` and the multiplier gains `dim`
(the source really says `+=`, not `*=`). -/
def ravel_index_go (dim : Nat) : List Nat → Nat → Nat → Option Nat
  | [], index1d, _ => some index1d
  | ix :: rest, index1d, multiplier =>
    if ix < dim then ravel_index_go dim rest (index1d + multiplier * ix) (multiplier + dim)
    else none

/-- `ravel_index` from `src/ngram.c`: iterates over the index from its last
element down to its first. -/
def ravel_index (index : List Nat) (dim : Nat) : Option Nat :=
  ravel_index_go dim index.reverse 0 1

/-- The row-major formula the spec states for `ravel`:
`offset = Σ context[i] * dim^(n-1-i)`, written in Horner form.  This is the
comparison point for the refinement claims about `ravel_index`; it is NOT
the code's computation. -/
def ravel_index_row_major (index : List Nat) (dim : Nat) : Nat :=
  index.foldl (fun acc ix => acc * dim + ix) 0

/-- The `NgramModel` struct from `src/ngram.c`.  The scratch `ravel_buffer`
is call-scoped (per the code it carries no state between calls) and is
modelled inline in `ngram_inference`.  Counts are `uint32_t` in the source;
they are modelled as `Nat` (the claims under study never approach `2^32`). -/
structure NgramModel where
  seq_len : Nat
  vocab_size : Nat
  smoothing : ℚ
  num_counts : Nat
  counts : List Nat

/-- The model state the body of `ngram_init` constructs: `num_counts =
powi(vocab_size, seq_len)` and a counts table of that many zeros.  Stated
separately from `ngram_init` so that claims about `ngram_train` /
`ngram_inference` on a freshly constructed model can be expressed
independently of the construction-time assertion (settled separately). -/
def ngram_init_state (vocab_size seq_len : Nat) (smoothing : ℚ) : NgramModel :=
  { seq_len := seq_len
    vocab_size := vocab_size
    smoothing := smoothing
    num_counts := powi vocab_size seq_len
    counts := List.replicate (powi vocab_size seq_len) 0 }

/-- `ngram_init` from `src/ngram.c`: asserts `vocab_size > 0` and then
`seq_len >= 1 && seq_len <= 0` (transcribed exactly as the source writes
it), and on success produces the zeroed model state.  An assertion failure
is `none`. -/
def ngram_init (vocab_size seq_len : Int) (smoothing : ℚ) : Option NgramModel :=
  if 0 < vocab_size ∧ (1 ≤ seq_len ∧ seq_len ≤ 0) then
    some (ngram_init_state vocab_size.toNat seq_len.toNat smoothing)
  else none

/-- `ngram_train` from `src/ngram.c`: ravels the window, asserts
`offset < num_counts`, and increments that cell.  A failed ravel assertion
or a failed bounds assertion is `none`. -/
def ngram_train (model : NgramModel) (tape : List Nat) : Option NgramModel :=
  match ravel_index tape model.vocab_size with
  | none => none
  | some offset =>
    if offset < model.num_counts then
      some { model with counts := model.counts.set offset (model.counts.getD offset 0 + 1) }
    else none

/-- `ngram_inference` from `src/ngram.c`: copies `tape[0..seq_len-2]` into
the scratch buffer, sets its last slot to `0`, ravels the padded buffer,
reads the `vocab_size` cells starting at that offset as the counts row,
sums them together with `vocab_size * smoothing`, and either returns the
uniform distribution (zero sum) or `scale * (count + smoothing)` per token
with `scale = 1 / row_sum`.  Reading a `tape` or `counts` cell that does
not exist (the C program's out-of-bounds access) is `none`.  The source's
`sclae` spelling on the line defining the scale is read as `scale`. -/
def ngram_inference (model : NgramModel) (tape : List Nat) : Option (List ℚ) :=
  match (List.range (model.seq_len - 1)).mapM (fun i => tape.get? i) with
  | none => none
  | some context =>
    match ravel_index (context ++ [0]) model.vocab_size with
    | none => none
    | some offset =>
      match (List.range model.vocab_size).mapM (fun i => model.counts.get? (offset + i)) with
      | none => none
      | some counts_row =>
        let row_sum : ℚ :=
          counts_row.foldl (fun acc c => acc + (c : ℚ)) ((model.vocab_size : ℚ) * model.smoothing)
        if row_sum = 0 then
          some (List.replicate model.vocab_size ((1 : ℚ) / (model.vocab_size : ℚ)))
        else
          some (counts_row.map (fun c => (1 / row_sum) * ((c : ℚ) + model.smoothing)))

/-- The `DataLoader` struct from `src/ngram.c`: the not-yet-read portion of
the character stream (the `FILE*`), the configured `seq_len`, and the tape. -/
structure DataLoader where
  stream : List Nat
  seq_len : Nat
  tape : Tape

/-- The `while (1)` loop of `dataloader_next` from `src/ngram.c`: read one
character, encode it, feed it to the tape, return `true` (a window) as soon
as the tape reports ready, and return `false` (end of stream) when the
stream runs out.  A failed `tokenizer_encode` assertion is `none`. -/
def dataloader_loop (seq_len : Nat) : List Nat → Tape → Option (DataLoader × Bool)
  | [], tape => some (⟨[], seq_len, tape⟩, false)
  | c :: rest, tape =>
    match tokenizer_encode c with
    | none => none
    | some token =>
      if (tape_update tape token).2 then
        some (⟨rest, seq_len, (tape_update tape token).1⟩, true)
      else
        dataloader_loop seq_len rest (tape_update tape token).1

/-- `dataloader_next` from `src/ngram.c`. -/
def dataloader_next (dataloader : DataLoader) : Option (DataLoader × Bool) :=
  dataloader_loop dataloader.seq_len dataloader.stream dataloader.tape

/-- The token a valid character encodes to, as a total function
(`tokenizer_encode` with the `some` stripped). -/
def encTok (c : Nat) : Nat :=
  (tokenizer_encode c).getD 0

/-- `readyAt tp toks k` says: feeding `toks` into the tape `tp`, the
`(k+1)`-st call to `tape_update` (the one consuming `toks[k]`) reports a
full window. -/
def readyAt (tp : Tape) (toks : List Nat) (k : Nat) : Prop :=
  (tape_update (tape_feed tp (toks.take k)) (toks.getD k 0)).2 = true

set_option maxRecDepth 4000

lemma tokenizer_encode_valid {c : Nat} (h : c = 10 ∨ (97 ≤ c ∧ c ≤ 122)) :
    tokenizer_encode c = some (encTok c) := by
  simp only [encTok, tokenizer_encode, if_pos h, Option.getD_some]

/-- Claim C1.  The claim: for every in-range index sequence, `ravel_index` returns
the row-major offset `Σ context[i] * vocab_size^(seq_len-1-i)`, and the
base-`vocab_size` digit decomposition of the offset reproduces the input.
This is FALSE of the code: the loop advances the place value with
`multiplier += dim` instead of `multiplier *= dim`.  At `dim = 27` the
window `[1, 0]` ravels to 28 while the row-major formula gives 27, and at
`dim = 3` the two distinct windows `[1, 0, 1]` and `[0, 2, 0]` ravel to the
same offset 8, so no decomposition can reproduce both inputs. -/
theorem ravel_index_C1 :
    ravel_index [1, 0] 27 = some 28 ∧
    ravel_index_row_major [1, 0] 27 = 27 ∧
    ravel_index [1, 0, 1] 3 = some 8 ∧
    ravel_index [0, 2, 0] 3 = some 8 := by
  refine ⟨rfl, rfl, rfl, rfl⟩

/-- Claim C2.  The claim: `ngram_init` fails exactly when `vocab_size <= 0` or
`seq_len < 1`, and succeeds otherwise.  This is FALSE of the code: the
source asserts `seq_len >= 1 && seq_len <= 0`, which no integer satisfies,
so construction aborts for every configuration — including valid ones such
as `vocab_size = 27`, `seq_len = 2`. -/
theorem ngram_init_C2 (vocab_size seq_len : Int) (smoothing : ℚ) :
    ngram_init vocab_size seq_len smoothing = none := by
  unfold ngram_init
  rw [if_neg]
  rintro ⟨-, h1, h2⟩
  omega

/-- Claim C3.  The claim: for every context of `seq_len - 1` valid tokens,
inference pads with a placeholder 0, ravels, reads the `vocab_size`
contiguous counts starting at the base offset, and (for nonzero sum)
returns `(count[i] + smoothing) / sum` per token.  This is FALSE of the
code for some valid contexts: with `vocab_size = 27`, `seq_len = 2`,
context `[26]` ravels (via the faulty `multiplier += dim` arithmetic) to
base offset 728 in a 729-entry table, so the 27-cell row read runs out of
bounds and no well-defined probabilities exist. -/
theorem ngram_inference_C3 :
    ngram_inference (ngram_init_state 27 2 (1/10)) [26] = none ∧
    ravel_index [26, 0] 27 = some 728 ∧
    (ngram_init_state 27 2 (1/10)).num_counts = 729 := by
  refine ⟨rfl, rfl, rfl⟩

/-- Claim C4.  The claim: training any valid window `w` exactly `k` times on a
fresh model stores count `k` for `w`, counts never decrease, and train
increments exactly one cell.  This is FALSE of the code: with
`vocab_size = 27`, `seq_len = 2`, the valid window `[26, 26]` ravels (via
the faulty `multiplier += dim` arithmetic) to offset 754, the bounds
assertion `offset < num_counts` (754 < 729) fails, and `train` aborts
without storing any count, so even `k = 1` is unattainable. -/
theorem ngram_train_C4 :
    ngram_train (ngram_init_state 27 2 (1/10)) [26, 26] = none ∧
    ravel_index [26, 26] 27 = some 754 := by
  refine ⟨rfl, rfl⟩

/-- Claim C6.  The claim: with `smoothing = 0` and an all-zero counts row, inference
returns exactly `1/vocab_size` for every token as a normal result.  This is
FALSE of the code for some valid contexts: with `vocab_size = 27`,
`seq_len = 2`, `smoothing = 0` on a fresh (all-zero, hence never-seen)
model, context `[26]` makes the 27-cell row read start at offset 728 of the
729-entry table, so the reads run out of bounds and the uniform-fallback
branch is never reached with well-defined data. -/
theorem ngram_inference_C6 :
    ngram_inference (ngram_init_state 27 2 0) [26] = none := by
  rfl

/-- Claim C7.  The claim: for every valid context and every reachable model state,
inference returns values that are nonnegative and sum to 1 (within 1e-5),
in both branches.  This is FALSE of the code for some valid contexts: with
`vocab_size = 2`, `seq_len = 3` on a fresh model, context `[1, 1]` ravels
(via the faulty `multiplier += dim` arithmetic) to base offset 8 in an
8-entry table, so the row read is entirely out of bounds and inference
returns no well-formed distribution at all. -/
theorem ngram_inference_C7 :
    ngram_inference (ngram_init_state 2 3 (1/10)) [1, 1] = none ∧
    ravel_index [1, 1, 0] 2 = some 8 ∧
    (ngram_init_state 2 3 (1/10)).num_counts = 8 := by
  refine ⟨rfl, rfl, rfl⟩

/-- Claim C10.  The claim: every window of `seq_len` tokens in `[0, vocab_size)`
ravels to an offset strictly below `vocab_size^seq_len`, so train's bounds
assertion holds and the increment is in bounds.  This is FALSE of the code:
with `vocab_size = 27`, `seq_len = 2`, the valid window `[26, 26]` ravels
(via the faulty `multiplier += dim` arithmetic) to 754, which is not below
`powi 27 2 = 729`. -/
theorem ravel_index_C10 :
    ravel_index [26, 26] 27 = some 754 ∧
    powi 27 2 = 729 ∧
    ¬ (754 < 729) := by
  refine ⟨rfl, rfl, by omega⟩

/-- Claim C8.  The tokenizer maps `'a'..'z'` (codes 97..122) to token ids 1..26 and
newline (code 10) to token id 0, `tokenizer_decode` is the inverse mapping,
and for every token `t` in 0..26, encoding the decoded character gives back
`t`. -/
theorem tokenizer_C8 (t c : Nat) (ht : t ≤ 26) (hc1 : 97 ≤ c) (hc2 : c ≤ 122) :
    (tokenizer_decode t).bind tokenizer_encode = some t ∧
    tokenizer_encode 10 = some 0 ∧
    tokenizer_encode c = some (c - 97 + 1) ∧
    tokenizer_decode (c - 97 + 1) = some c := by
  refine ⟨?_, rfl, ?_, ?_⟩
  · interval_cases t <;> rfl
  · rw [tokenizer_encode, if_pos (Or.inr ⟨hc1, hc2⟩), if_neg (by omega)]
  · rw [tokenizer_decode, if_pos (by omega), if_neg (by omega)]
    congr 1
    omega

/-- Witness for C8 at `t = 26`, `c = 122` (the letter `z`). -/
theorem tokenizer_C8_witness :
    (tokenizer_decode 26).bind tokenizer_encode = some 26 ∧
    tokenizer_encode 10 = some 0 ∧
    tokenizer_encode 122 = some (122 - 97 + 1) ∧
    tokenizer_decode (122 - 97 + 1) = some 122 :=
  tokenizer_C8 26 122 (by decide) (by decide) (by decide)

lemma tape_feed_spec (ts : List Nat) (t : Tape) (hlen : t.length ≠ 0)
    (hb : t.buffer.length = t.length) (hn : t.n ≤ t.length) :
    (tape_feed t ts).length = t.length ∧
    (tape_feed t ts).buffer = (t.buffer ++ ts).drop ts.length ∧
    (tape_feed t ts).n = min (t.n + ts.length) t.length := by
  induction ts generalizing t with
  | nil =>
    refine ⟨rfl, by simp [tape_feed], ?_⟩
    simp only [tape_feed, List.foldl_nil, List.length_nil, Nat.add_zero]
    omega
  | cons a as ih =>
    have hup : (tape_update t a).1 =
        { t with buffer := t.buffer.drop 1 ++ [a],
                 n := if t.n < t.length then t.n + 1 else t.n } := by
      rw [tape_update, if_neg hlen]
    have hfeed : tape_feed t (a :: as) = tape_feed (tape_update t a).1 as := rfl
    have hblen : ((tape_update t a).1).buffer.length = ((tape_update t a).1).length := by
      simp only [hup, List.length_append, List.length_drop, List.length_cons, List.length_nil]
      omega
    have hlen2 : ((tape_update t a).1).length ≠ 0 := by simp only [hup]; exact hlen
    have hn2 : ((tape_update t a).1).n ≤ ((tape_update t a).1).length := by
      simp only [hup]
      split <;> omega
    obtain ⟨ihl, ihb, ihn⟩ := ih (tape_update t a).1 hlen2 hblen hn2
    rw [hfeed]
    refine ⟨by rw [ihl]; simp only [hup], ?_, ?_⟩
    · rw [ihb]
      simp only [hup, List.length_cons]
      have h2 : List.drop 1 (t.buffer ++ a :: as) = List.drop 1 t.buffer ++ a :: as :=
        List.drop_append_of_le_length (by omega)
      calc List.drop as.length ((List.drop 1 t.buffer ++ [a]) ++ as)
          = List.drop as.length (List.drop 1 t.buffer ++ a :: as) := by
            rw [List.append_assoc, List.singleton_append]
        _ = List.drop as.length (List.drop 1 (t.buffer ++ a :: as)) := by rw [h2]
        _ = List.drop (1 + as.length) (t.buffer ++ a :: as) := List.drop_drop _ _ _
        _ = List.drop (as.length + 1) (t.buffer ++ a :: as) := by rw [Nat.add_comm]
    · rw [ihn]
      simp only [hup, List.length_cons]
      split <;> omega

/-- Claim C5.  A `tape_update` on a length-0 tape returns ready and mutates
nothing; on a tape of capacity `L > 0` (freshly initialised: `n = 0`,
arbitrary — i.e. uninitialised — buffer contents `b0` of size `L`), after
feeding at least `L` tokens the buffer holds exactly the `L` most recent
tokens in arrival order, and an update reports ready exactly when the
total number of tokens supplied so far reaches `L`. -/
theorem tape_update_C5 (t : Tape) (tok tok2 L : Nat) (b0 ts p : List Nat)
    (h0 : t.length = 0) (hL : 0 < L) (hb : b0.length = L) (hts : L ≤ ts.length) :
    tape_update t tok = (t, true) ∧
    (tape_feed ⟨0, L, b0⟩ ts).buffer = ts.drop (ts.length - L) ∧
    ((tape_update (tape_feed ⟨0, L, b0⟩ p) tok2).2 = true ↔ L ≤ p.length + 1) := by
  have hLne : L ≠ 0 := by omega
  refine ⟨?_, ?_, ?_⟩
  · rw [tape_update, if_pos h0]
  · obtain ⟨-, hbuf, -⟩ := tape_feed_spec ts ⟨0, L, b0⟩ hLne hb (Nat.zero_le L)
    rw [hbuf]
    have h1 : ts.length = b0.length + (ts.length - L) := by omega
    calc (b0 ++ ts).drop ts.length
        = (b0 ++ ts).drop (b0.length + (ts.length - L)) := by rw [← h1]
      _ = ts.drop (ts.length - L) := List.drop_append _
  · obtain ⟨hlen2, -, hn2⟩ := tape_feed_spec p ⟨0, L, b0⟩ hLne hb (Nat.zero_le L)
    rw [tape_update, if_neg (by rw [hlen2]; exact hLne)]
    simp only [hlen2, hn2, beq_iff_eq]
    split <;> omega

/-- Witness for C5: a length-0 tape, and a capacity-2 tape (junk contents
`[9, 9]`) fed the tokens of the text `ab\n`. -/
theorem tape_update_C5_witness :
    tape_update ⟨0, 0, []⟩ 5 = (⟨0, 0, []⟩, true) ∧
    (tape_feed ⟨0, 2, [9, 9]⟩ [1, 2, 0]).buffer = [1, 2, 0].drop ([1, 2, 0].length - 2) ∧
    ((tape_update (tape_feed ⟨0, 2, [9, 9]⟩ [1]) 7).2 = true ↔ 2 ≤ [1].length + 1) :=
  tape_update_C5 ⟨0, 0, []⟩ 5 7 2 [9, 9] [1, 2, 0] [1] rfl (by decide) rfl (by decide)

lemma tape_feed_cons (tp : Tape) (x : Nat) (l : List Nat) :
    tape_feed tp (x :: l) = tape_feed (tape_update tp x).1 l := rfl

lemma readyAt_zero (tp : Tape) (tc : Nat) (tr : List Nat) :
    readyAt tp (tc :: tr) 0 ↔ (tape_update tp tc).2 = true := Iff.rfl

lemma readyAt_succ (tp : Tape) (tc : Nat) (tr : List Nat) (j : Nat) :
    readyAt tp (tc :: tr) (j + 1) ↔ readyAt ((tape_update tp tc).1) tr j := Iff.rfl

/-- Claim C9.  On a stream of valid characters (lowercase letters and
newlines), `dataloader_next` never hits the tokenizer's invalid-character
failure: it always returns a result.  If the result flag is `false`
(end of stream), the stream was exhausted with every character encoded and
fed to the tape and no update along the way completed a window — a
distinct signal, not an error.  If the flag is `true`, there is a first
position `k` at which the tape reported a full window, exactly the
characters up to `k` were consumed and fed in order, and the rest of the
stream is untouched. -/
theorem dataloader_next_C9 (sl : Nat) (tp : Tape) (s : List Nat)
    (hv : ∀ c ∈ s, c = 10 ∨ (97 ≤ c ∧ c ≤ 122)) :
    ∃ d r, dataloader_next ⟨s, sl, tp⟩ = some (d, r) ∧
      (r = false → d.stream = [] ∧ d.tape = tape_feed tp (s.map encTok) ∧
        ∀ j, j < s.length → ¬ readyAt tp (s.map encTok) j) ∧
      (r = true → ∃ k, k < s.length ∧ readyAt tp (s.map encTok) k ∧
        (∀ j, j < k → ¬ readyAt tp (s.map encTok) j) ∧
        d.stream = s.drop (k + 1) ∧ d.tape = tape_feed tp ((s.map encTok).take (k + 1))) := by
  induction s generalizing tp with
  | nil =>
    refine ⟨⟨[], sl, tp⟩, false, rfl, ?_, ?_⟩
    · intro _
      exact ⟨rfl, rfl, fun j hj => absurd hj (Nat.not_lt_zero j)⟩
    · intro h
      simp at h
  | cons c cs ih =>
    have hc := hv c (List.mem_cons_self c cs)
    have hcs : ∀ x ∈ cs, x = 10 ∨ (97 ≤ x ∧ x ≤ 122) :=
      fun x hx => hv x (List.mem_cons_of_mem c hx)
    have henc : tokenizer_encode c = some (encTok c) := tokenizer_encode_valid hc
    have hstep : dataloader_next ⟨c :: cs, sl, tp⟩ =
        if (tape_update tp (encTok c)).2 then
          some (⟨cs, sl, (tape_update tp (encTok c)).1⟩, true)
        else dataloader_next ⟨cs, sl, (tape_update tp (encTok c)).1⟩ := by
      simp only [dataloader_next, dataloader_loop, henc]
    cases hrdy : (tape_update tp (encTok c)).2 with
    | true =>
      rw [hrdy] at hstep
      simp only [if_true] at hstep
      refine ⟨⟨cs, sl, (tape_update tp (encTok c)).1⟩, true, hstep, ?_, ?_⟩
      · intro h
        simp at h
      · intro _
        refine ⟨0, Nat.succ_pos cs.length, ?_, ?_, rfl, ?_⟩
        · rw [List.map_cons, readyAt_zero]
          exact hrdy
        · intro j hj
          exact absurd hj (Nat.not_lt_zero j)
        · rw [List.map_cons, List.take_succ_cons, List.take_zero]
          rfl
    | false =>
      rw [hrdy] at hstep
      simp only [Bool.false_eq_true, if_false] at hstep
      obtain ⟨d, r, heq, hF, hT⟩ := ih (tape_update tp (encTok c)).1 hcs
      refine ⟨d, r, hstep.trans heq, ?_, ?_⟩
      · intro hr
        obtain ⟨h1, h2, h3⟩ := hF hr
        refine ⟨h1, ?_, ?_⟩
        · rw [List.map_cons, tape_feed_cons]
          exact h2
        · intro j hj
          cases j with
          | zero =>
            rw [List.map_cons, readyAt_zero, hrdy]
            simp
          | succ j =>
            rw [List.map_cons, readyAt_succ]
            exact h3 j (by simpa using hj)
      · intro hr
        obtain ⟨k, hk1, hk2, hk3, hk4, hk5⟩ := hT hr
        refine ⟨k + 1, by simpa using hk1, ?_, ?_, ?_, ?_⟩
        · rw [List.map_cons, readyAt_succ]
          exact hk2
        · intro j hj
          cases j with
          | zero =>
            rw [List.map_cons, readyAt_zero, hrdy]
            simp
          | succ j =>
            rw [List.map_cons, readyAt_succ]
            exact hk3 j (by omega)
        · rw [List.drop_succ_cons]
          exact hk4
        · rw [List.map_cons, List.take_succ_cons, tape_feed_cons]
          exact hk5

/-- Witness for C9: the stream `ab\n` with a capacity-2 tape. -/
theorem dataloader_next_C9_witness :
    ∃ d r, dataloader_next ⟨[97, 98, 10], 2, ⟨0, 2, [0, 0]⟩⟩ = some (d, r) ∧
      (r = false → d.stream = [] ∧ d.tape = tape_feed ⟨0, 2, [0, 0]⟩ ([97, 98, 10].map encTok) ∧
        ∀ j, j < [97, 98, 10].length → ¬ readyAt ⟨0, 2, [0, 0]⟩ ([97, 98, 10].map encTok) j) ∧
      (r = true → ∃ k, k < [97, 98, 10].length ∧ readyAt ⟨0, 2, [0, 0]⟩ ([97, 98, 10].map encTok) k ∧
        (∀ j, j < k → ¬ readyAt ⟨0, 2, [0, 0]⟩ ([97, 98, 10].map encTok) j) ∧
        d.stream = [97, 98, 10].drop (k + 1) ∧
        d.tape = tape_feed ⟨0, 2, [0, 0]⟩ (([97, 98, 10].map encTok).take (k + 1))) :=
  dataloader_next_C9 2 ⟨0, 2, [0, 0]⟩ [97, 98, 10] (by decide)
